import Mathlib

/-!
Verification of the Snowplow analytics event-transformer library.

The development shallowly embeds the two source files of the library,
`json_shredder.go` and `event_transformer.go`:

* schema-URI parsing (`extractSchema`) and canonical field-name derivation
  (`fixSchema`);
* JSON context and unstructured-event shredding (`parseContexts`,
  `parseUnstruct`);
* the converter registry and the whole-record transformer
  (`jsonifyGoodEvent`, `Transform`).

Strings are Lean `String`s; the handful of Go standard-library routines the
code calls (`strings.Split`, `strings.Replace`, `strings.ToLower`,
`strconv.ParseInt`, the two regular expressions) are embedded as structurally
recursive Lean functions over `List Char`, faithful to their behaviour on the
inputs the library can feed them (all such inputs are ASCII by the time the
routines run, because the schema regular expression admits only ASCII).
Go map values are embedded as association lists whose iteration order is the
first-insertion order, one admissible order for Go's unspecified map
iteration order; properties about grouped output are therefore stated at the
set level (key membership and per-key sequences), never about list order of
distinct keys.  A Go runtime panic (calling a `nil` converter, indexing past
the end of a slice) is embedded as the `none` case of an `Option` result.

The file is organised as definitions first, theorems second.
-/

namespace Snowplow

/-! ## Definitions -/

/-! ### Character classes of the schema-URI regular expression -/

/-- Character class `[a-zA-Z0-9-_.]` of the vendor group (ASCII ranges,
exactly as Go's regexp interprets them). -/
def isVendorChar (c : Char) : Bool :=
  (('a' ≤ c && c ≤ 'z') || ('A' ≤ c && c ≤ 'Z') || ('0' ≤ c && c ≤ '9')
    || c = '-' || c = '_' || c = '.')

/-- Character class `[a-zA-Z0-9-_]` of the name and format groups. -/
def isNameChar (c : Char) : Bool :=
  (('a' ≤ c && c ≤ 'z') || ('A' ≤ c && c ≤ 'Z') || ('0' ≤ c && c ≤ '9')
    || c = '-' || c = '_')

/-- ASCII digit `[0-9]`. -/
def isDigitCh (c : Char) : Bool := '0' ≤ c && c ≤ '9'

/-- ASCII non-zero digit `[1-9]`. -/
def isNonZeroDigitCh (c : Char) : Bool := '1' ≤ c && c ≤ '9'

/-- ASCII upper-case letter, the class `[A-Z]`. -/
def isUpperCh (c : Char) : Bool := 'A' ≤ c && c ≤ 'Z'

/-! ### `strings.Split` with a single-character separator

`strings.Split(s, sep)` for a one-character separator `sep` splits `s` around
every occurrence of `sep`; the empty string yields `[""]`.  We embed it by
structural recursion over the character list. -/

/-- Split a character list at every occurrence of `sep`
(the semantics of Go's `strings.Split` for a one-character separator). -/
def splitCh (sep : Char) : List Char → List (List Char)
  | [] => [[]]
  | c :: rest =>
    if c = sep then [] :: splitCh sep rest
    else
      match splitCh sep rest with
      | [] => [[c]]
      | s :: ss => (c :: s) :: ss

/-- `strings.Split s (String.singleton sep)` on Lean strings. -/
def goSplit (s : String) (sep : Char) : List String :=
  (splitCh sep s.data).map List.asString

/-- Interleave the separator back between segments (left inverse data of
`splitCh`). -/
def joinCh (sep : Char) : List (List Char) → List Char
  | [] => []
  | [s] => s
  | s :: ss => s ++ sep :: joinCh sep ss

/-! ### Schema-URI parsing (`extractSchema`, `json_shredder.go` lines 52-72)

The Go code matches the anchored regular expression

`^iglu:([a-zA-Z0-9-_.]+)/([a-zA-Z0-9-_]+)/([a-zA-Z0-9-_]+)/([1-9][0-9]*(?:-(?:0|[1-9][0-9]*)){2})$`

None of the three leading capture groups admits the character `/`, and the
version group admits neither `/` nor a third `-`-separated chunk, so a string
matches the expression if and only if it starts with `iglu:` and the
remainder splits on `/` into exactly four chunks satisfying the per-group
constraints; the submatch decomposition is unique.  The embedding parses by
that forced decomposition. -/

/-- `MODEL` of the version triple: `[1-9][0-9]*`, no leading zero. -/
def isModelCh : List Char → Bool
  | [] => false
  | c :: rest => isNonZeroDigitCh c && rest.all isDigitCh

/-- `REVISION` or `ADDITION` of the version triple: `0|[1-9][0-9]*`. -/
def isRevCh (l : List Char) : Bool :=
  l = ['0'] || isModelCh l

/-- The whole version group `[1-9][0-9]*(?:-(?:0|[1-9][0-9]*)){2}`. -/
def isVersionCh (l : List Char) : Bool :=
  match splitCh '-' l with
  | [m, r, a] => isModelCh m && isRevCh r && isRevCh a
  | _ => false

/-- The parsed schema identity (struct `Schema` of `json_shredder.go`). -/
structure Schema where
  vendor : String
  name : String
  format : String
  version : String
deriving DecidableEq, Repr

/-- The Go source text of the schema regular expression (const `SchemaURI`);
it appears verbatim in the parser's error message. -/
def SchemaURI : String :=
  "^iglu:([a-zA-Z0-9-_.]+)/([a-zA-Z0-9-_]+)/([a-zA-Z0-9-_]+)/([1-9][0-9]*(?:-(?:0|[1-9][0-9]*)){2})$"

/-- The error message of `extractSchema` for a non-matching string. -/
def schemaErrMsg (uri : String) : String :=
  "Schema " ++ uri ++ " does not conform to regular expression " ++ SchemaURI

/-- Validity of the three slash-separated groups and the version group. -/
def schemaGroupsOk (v n f ver : List Char) : Bool :=
  !v.isEmpty && v.all isVendorChar &&
  !n.isEmpty && n.all isNameChar &&
  !f.isEmpty && f.all isNameChar &&
  isVersionCh ver

/-- The regular-expression match underlying `extractSchema`: the anchored
expression matches the character list exactly when the list starts with
`iglu:` and the remainder splits on `/` into four groups passing
`schemaGroupsOk` (the decomposition is forced, see above).  Returns the
captured groups as a `Schema` on a match, `none` otherwise. -/
def extractSchemaCore : List Char → Option Schema
  | 'i' :: 'g' :: 'l' :: 'u' :: ':' :: rest =>
    match splitCh '/' rest with
    | [v, n, f, ver] =>
      if schemaGroupsOk v n f ver then
        some ⟨v.asString, n.asString, f.asString, ver.asString⟩
      else none
    | _ => none
  | _ => none

/-- `extractSchema` (`json_shredder.go` lines 61-72): extract the schema
identity from an iglu URI, or fail with a message naming the offending
string and the regular expression. -/
def extractSchema (uri : String) : Except String Schema :=
  match extractSchemaCore uri.data with
  | some sch => .ok sch
  | none => .error (schemaErrMsg uri)

/-! ### Canonical field names (`fixSchema`, `json_shredder.go` lines 74-85) -/

/-- `strings.Replace(s, ".", "_", -1)` at character level. -/
def replaceDots (l : List Char) : List Char :=
  l.map fun c => if c = '.' then '_' else c

/-- `strings.ToLower` at character level.  Go lowers full Unicode; every
input reaching this point is ASCII (admitted by the schema regular
expression), where `Char.toLower` agrees with Go. -/
def lowerCh (l : List Char) : List Char :=
  l.map Char.toLower

/-- `regexp.MustCompile("([^A-Z_])([A-Z])").ReplaceAllString(s, snake)`
where the replacement re-inserts both characters around a `_`: an
underscore is inserted between every adjacent pair whose first character is
neither upper-case nor `_` and whose second is upper-case.  Go scans
left-to-right without overlap; since the second character of a match is
upper-case it can never begin the next match, so the pairwise recursion is
exactly the regexp replacement. -/
def camelIns : List Char → List Char
  | c :: d :: rest =>
    if !isUpperCh c && c ≠ '_' && isUpperCh d then
      c :: '_' :: camelIns (d :: rest)
    else
      c :: camelIns (d :: rest)
  | l => l

/-- `fixSchema` (`json_shredder.go` lines 74-85): derive the output field
name `<prefix>_<snake_vendor>_<snake_name>_<model>` from a schema URI. -/
def fixSchema (pfx schema : String) : Except String String :=
  match extractSchema schema with
  | .error e => .error e
  | .ok sd =>
    let snakeCaseOrganization := (lowerCh (replaceDots sd.vendor.data)).asString
    let snakeCaseName := (lowerCh (camelIns sd.name.data)).asString
    let model := ((splitCh '-' sd.version.data).headI).asString
    .ok (pfx ++ "_" ++ snakeCaseOrganization ++ "_" ++ snakeCaseName ++ "_" ++ model)

/-! ### The spec-side grammar (for claim C5)

Written from the spec's words: a URI matches the grammar
`iglu:<vendor>/<name>/<format>/<model>-<revision>-<addition>` when it is
literally that concatenation with each component drawn from its character
class and the version triple free of leading zeros. -/

/-- Spec-side grammar relation between a URI string and a schema identity. -/
def MatchesIgluGrammar (uri : String) (sch : Schema) : Prop :=
  uri = "iglu:" ++ sch.vendor ++ "/" ++ sch.name ++ "/" ++ sch.format
          ++ "/" ++ sch.version
  ∧ sch.vendor ≠ "" ∧ (∀ c ∈ sch.vendor.data, isVendorChar c = true)
  ∧ sch.name ≠ "" ∧ (∀ c ∈ sch.name.data, isNameChar c = true)
  ∧ sch.format ≠ "" ∧ (∀ c ∈ sch.format.data, isNameChar c = true)
  ∧ ∃ m r a : List Char,
      sch.version.data = m ++ '-' :: (r ++ '-' :: a)
      ∧ isModelCh m = true ∧ isRevCh r = true ∧ isRevCh a = true

/-! ### Spec-side canonical-name pieces (for claim C2)

These re-state, in the spec's own terms, the three pieces of the canonical
field name `<prefix>_<snake_vendor>_<snake_name>_<model>`; the claim is that
`fixSchema` computes exactly this shape. -/

/-- Spec-side `snake_vendor`: the vendor with every `.` replaced by `_`
and lower-cased. -/
def specSnakeVendor (v : String) : String :=
  (v.data.map fun c => Char.toLower (if c = '.' then '_' else c)).asString

/-- A camel-case boundary: the first character is neither a capital letter
nor an underscore and the second is a capital letter. -/
def camelBoundary (p d : Char) : Bool := !isUpperCh p && p ≠ '_' && isUpperCh d

/-- The underscore-insertion pass described positionally: every character
except the first is emitted from the (predecessor, character) pair list,
prefixed by `_` at a camel-case boundary. -/
def specInsList (l : List Char) : List Char :=
  match l with
  | [] => []
  | c :: _ =>
    c :: ((l.zip l.tail).map fun (pd : Char × Char) =>
      if camelBoundary pd.1 pd.2 then ['_', pd.2] else [pd.2]).flatten

/-- Spec-side `snake_name`: an underscore is inserted before every capital
letter that is preceded by a non-capital, non-underscore character, and the
result is lower-cased. -/
def specSnakeName (n : String) : String :=
  ((specInsList n.data).map Char.toLower).asString

/-- Spec-side model: only the leading integer component of the version
triple, i.e. the substring before the first `-`. -/
def specModel (ver : String) : String :=
  (ver.data.takeWhile fun c => c ≠ '-').asString

/-! ### JSON payload values

A decoded JSON value as Go's `encoding/json` produces into an `interface{}`.
The shredder never inspects a payload beyond comparing it against `nil`, so
numbers are represented by their literal text (Go would produce a `float64`);
a JSON `null` and an absent field both unmarshal to a `nil` interface and are
both represented by `JsonVal.null`. -/
inductive JsonVal where
  | null
  | bool (b : Bool)
  | num (lit : String)
  | str (s : String)
  | arr (elems : List JsonVal)
  | obj (fields : List (String × JsonVal))

/-- The Go comparison `v == nil` on a decoded `interface{}` value. -/
def JsonVal.isNull : JsonVal → Bool
  | .null => true
  | _ => false

/-! ### Envelope structures (`json_shredder.go` lines 25-42)

The structures into which `json.Unmarshal` decodes the contexts and
unstructured-event JSON documents.  A missing `schema` field decodes to the
zero value `""`; a missing or `null` `data` field decodes to `JsonVal.null`
(the `nil` interface). -/

/-- One entry of a contexts envelope (struct `ContextsData`). -/
structure ContextsData where
  schema : String
  data : JsonVal

/-- The contexts envelope (struct `Contexts`). -/
structure Contexts where
  schema : String
  data : List ContextsData

/-- The inner document of an unstruct envelope (struct `UnstructData`). -/
structure UnstructData where
  schema : String
  data : JsonVal

/-- The unstruct envelope (struct `Unstruct`). -/
structure Unstruct where
  data : UnstructData

/-! ### Context shredding (`parseContexts`, `json_shredder.go` lines 87-111) -/

/-- One Go map update `distinctContexts[schema] = append/new` on the
association-list embedding of `map[string][]interface{}` (first-insertion
key order). -/
def insertGrouped (acc : List (String × List JsonVal)) (k : String) (v : JsonVal) :
    List (String × List JsonVal) :=
  match acc with
  | [] => [(k, [v])]
  | (k1, vs) :: rest =>
    if k1 = k then (k1, vs ++ [v]) :: rest else (k1, vs) :: insertGrouped rest k v

/-- The loop of `parseContexts` (lines 94-105): canonicalize each entry's
schema, aborting on the first failure, and group the payloads by canonical
name; the final association list is the map converted to the output pair
list (lines 106-109). -/
def parseContextsData : List ContextsData → List (String × List JsonVal) →
    Except String (List (String × List JsonVal))
  | [], acc => .ok acc
  | c :: rest, acc =>
    match fixSchema "contexts" c.schema with
    | .error e => .error e
    | .ok schema => parseContextsData rest (insertGrouped acc schema c.data)

/-! ### Unstruct shredding (`parseUnstruct`, `json_shredder.go` lines 113-126) -/

/-- The body of `parseUnstruct` after unmarshalling (lines 118-125): fail if
the inner data is the `nil` interface, otherwise canonicalize the inner
schema with prefix `unstruct_event` and return the single pair. -/
def parseUnstructData (u : Unstruct) : Except String (List (String × JsonVal)) :=
  if u.data.data.isNull then
    .error "could not extract inner data field from unstructured event"
  else
    match fixSchema "unstruct_event" u.data.schema with
    | .error e => .error e
    | .ok fixedSchema => .ok [(fixedSchema, u.data.data)]

/-! ### Spec-side grouping functions (for claims C1 and C10) -/

/-- The canonical names of the entries of a contexts envelope, in entry
order (with multiplicity; entries whose schema fails to canonicalize
contribute nothing). -/
def ctxNames (l : List ContextsData) : List String :=
  l.filterMap fun c => (fixSchema "contexts" c.schema).toOption

/-- The payloads of all entries whose schema canonicalizes to `k`, in
first-seen order. -/
def ctxPayloads (k : String) (l : List ContextsData) : List JsonVal :=
  l.filterMap fun c =>
    match fixSchema "contexts" c.schema with
    | .ok s => if s = k then some c.data else none
    | .error _ => none

/-- Association-list lookup (the read side of a Go `map[string]V`). -/
def lookupKV {α : Type} : List (String × α) → String → Option α
  | [], _ => none
  | (k1, v) :: rest, k => if k1 = k then some v else lookupKV rest k

/-! ### Concrete example envelopes (used by witnesses) -/

/-- A contexts envelope with two entries sharing a canonical name and one
distinct entry. -/
def ctxExample : Contexts :=
  ⟨"", [⟨"iglu:com.acme/myEvent/jsonschema/1-0-0", JsonVal.str "a"⟩,
        ⟨"iglu:com.acme/other/jsonschema/2-0-0", JsonVal.str "b"⟩,
        ⟨"iglu:com.acme/myEvent/jsonschema/1-1-1", JsonVal.str "c"⟩]⟩

/-- A contexts envelope whose first entry has a null inner payload. -/
def ctxExampleNull : Contexts :=
  ⟨"", [⟨"iglu:com.acme/myEvent/jsonschema/1-0-0", JsonVal.null⟩,
        ⟨"iglu:com.acme/myEvent/jsonschema/1-0-0", JsonVal.str "b"⟩]⟩

/-! ### JSON text decoding (model of `encoding/json` unmarshalling)

`parseContexts` and `parseUnstruct` receive raw bytes and unmarshal them
with `json.Unmarshal` before shredding.  The standard-library decoder is
modelled here for the documents this library exchanges: objects, arrays,
strings (with `\"` and `\\` escapes), numbers (kept as literal text, see
`JsonVal`), `true`/`false`/`null`.  Struct field matching is by exact name
(Go additionally falls back to case-insensitive matching; every document in
this development uses the exact lower-case keys `schema` and `data`).
Decoding failures never carry claim-relevant text, so error messages are
abbreviated.  All functions recurse on an explicit fuel bounded by the input
length so that concrete evaluation reduces definitionally. -/

/-- JSON whitespace skipping. -/
def skipWs : List Char → List Char
  | [] => []
  | c :: rest =>
    if c = ' ' || c = '\t' || c = '\n' || c = '\r' then skipWs rest else c :: rest

/-- Characters that may continue a JSON number literal. -/
def isNumCh (c : Char) : Bool :=
  isDigitCh c || c = '-' || c = '+' || c = '.' || c = 'e' || c = 'E'

/-- Parse the remainder of a JSON string literal (after the opening quote),
accumulating characters until the closing quote. -/
def parseJStr : Nat → List Char → List Char → Option (List Char × List Char)
  | 0, _, _ => none
  | _ + 1, [], _ => none
  | fuel + 1, c :: rest, acc =>
    if c = '"' then some (acc.reverse, rest)
    else if c = '\\' then
      match rest with
      | '"' :: rest2 => parseJStr fuel rest2 ('"' :: acc)
      | '\\' :: rest2 => parseJStr fuel rest2 ('\\' :: acc)
      | _ => none
    else parseJStr fuel rest (c :: acc)

/-- Parsing mode: a single value, the element tail of an array, or the
member tail of an object. -/
inductive JMode where
  | val
  | arrTail
  | objTail

/-- The JSON grammar, one function over fuel (arrays and objects recurse
through the tail modes, which return `JsonVal.arr`/`JsonVal.obj`). -/
def parseJ : Nat → JMode → List Char → Option (JsonVal × List Char)
  | 0, _, _ => none
  | fuel + 1, JMode.val, l =>
    match skipWs l with
    | [] => none
    | c :: rest =>
      if c = '"' then
        match parseJStr (rest.length + 1) rest [] with
        | some (s, r) => some (.str s.asString, r)
        | none => none
      else if c = Char.ofNat 123 then
        match skipWs rest with
        | d :: r2 =>
          if d = Char.ofNat 125 then some (.obj [], r2)
          else parseJ fuel JMode.objTail rest
        | [] => none
      else if c = '[' then
        match skipWs rest with
        | d :: r2 =>
          if d = ']' then some (.arr [], r2)
          else parseJ fuel JMode.arrTail rest
        | [] => none
      else if c = 't' then
        match rest with
        | 'r' :: 'u' :: 'e' :: r2 => some (.bool true, r2)
        | _ => none
      else if c = 'f' then
        match rest with
        | 'a' :: 'l' :: 's' :: 'e' :: r2 => some (.bool false, r2)
        | _ => none
      else if c = 'n' then
        match rest with
        | 'u' :: 'l' :: 'l' :: r2 => some (.null, r2)
        | _ => none
      else if c = '-' || isDigitCh c then
        let numChars := (c :: rest).takeWhile isNumCh
        some (.num numChars.asString, (c :: rest).drop numChars.length)
      else none
  | fuel + 1, JMode.arrTail, l =>
    match parseJ fuel JMode.val l with
    | none => none
    | some (v, r) =>
      match skipWs r with
      | ',' :: r2 =>
        match parseJ fuel JMode.arrTail r2 with
        | some (.arr elems, r3) => some (.arr (v :: elems), r3)
        | _ => none
      | ']' :: r2 => some (.arr [v], r2)
      | _ => none
  | fuel + 1, JMode.objTail, l =>
    match skipWs l with
    | '"' :: rest =>
      match parseJStr (rest.length + 1) rest [] with
      | none => none
      | some (kChars, r) =>
        match skipWs r with
        | ':' :: r2 =>
          match parseJ fuel JMode.val r2 with
          | none => none
          | some (v, r3) =>
            match skipWs r3 with
            | ',' :: r4 =>
              match parseJ fuel JMode.objTail r4 with
              | some (.obj fields, r5) => some (.obj ((kChars.asString, v) :: fields), r5)
              | _ => none
            | d :: r4 =>
              if d = Char.ofNat 125 then some (.obj [(kChars.asString, v)], r4)
              else none
            | [] => none
        | _ => none
    | _ => none

/-- Decode a whole JSON document (value plus trailing whitespace only). -/
def jsonDecode (s : String) : Option JsonVal :=
  match parseJ (2 * s.data.length + 4) JMode.val s.data with
  | some (v, r) => if (skipWs r).isEmpty then some v else none
  | none => none

/-- Last-wins lookup of an object member, as multiple occurrences of the
same key overwrite each other during Go decoding. -/
def fieldLookup (fields : List (String × JsonVal)) (name : String) : Option JsonVal :=
  match fields with
  | [] => none
  | (k, v) :: rest =>
    match fieldLookup rest name with
    | some w => some w
    | none => if k = name then some v else none

/-- Decode one contexts-envelope entry (struct `ContextsData`): an object
whose `schema` member must be a string when present (zero value `""`
otherwise) and whose `data` member is kept as-is (`null` when absent). -/
def decodeContextsData (v : JsonVal) : Except String ContextsData :=
  match v with
  | .null => .ok ⟨"", JsonVal.null⟩
  | .obj fields =>
    match fieldLookup fields "schema" with
    | some (.str s) => .ok ⟨s, (fieldLookup fields "data").getD JsonVal.null⟩
    | none => .ok ⟨"", (fieldLookup fields "data").getD JsonVal.null⟩
    | some .null => .ok ⟨"", (fieldLookup fields "data").getD JsonVal.null⟩
    | some _ => .error "json: cannot unmarshal value into field schema of type string"
  | _ => .error "json: cannot unmarshal value into type ContextsData"

/-- Fold a list of entry decodes, aborting on the first failure. -/
def decodeContextsList : List JsonVal → Except String (List ContextsData)
  | [] => .ok []
  | v :: rest =>
    match decodeContextsData v with
    | .error e => .error e
    | .ok c =>
      match decodeContextsList rest with
      | .error e => .error e
      | .ok cs => .ok (c :: cs)

/-- Decode a contexts envelope (struct `Contexts`): `schema` as above,
`data` an array of entries (empty when absent or null). -/
def decodeContexts (v : JsonVal) : Except String Contexts :=
  match v with
  | .null => .ok ⟨"", []⟩
  | .obj fields =>
    match fieldLookup fields "schema" with
    | some (.bool _) => .error "json: cannot unmarshal value into field schema of type string"
    | some (.num _) => .error "json: cannot unmarshal value into field schema of type string"
    | some (.arr _) => .error "json: cannot unmarshal value into field schema of type string"
    | some (.obj _) => .error "json: cannot unmarshal value into field schema of type string"
    | _ =>
      let schemaStr := match fieldLookup fields "schema" with
        | some (.str s) => s
        | _ => ""
      match fieldLookup fields "data" with
      | none => .ok ⟨schemaStr, []⟩
      | some .null => .ok ⟨schemaStr, []⟩
      | some (.arr elems) =>
        match decodeContextsList elems with
        | .error e => .error e
        | .ok cs => .ok ⟨schemaStr, cs⟩
      | some _ => .error "json: cannot unmarshal value into field data of type []ContextsData"
  | _ => .error "json: cannot unmarshal value into type Contexts"

/-- Decode an unstruct envelope (struct `Unstruct`): the `data` member is an
inner object with `schema` (string) and `data` (any value, `null` when
absent); an absent or null `data` member leaves the zero inner document. -/
def decodeUnstruct (v : JsonVal) : Except String Unstruct :=
  match v with
  | .null => .ok ⟨⟨"", JsonVal.null⟩⟩
  | .obj fields =>
    match fieldLookup fields "data" with
    | none => .ok ⟨⟨"", JsonVal.null⟩⟩
    | some .null => .ok ⟨⟨"", JsonVal.null⟩⟩
    | some (.obj inner) =>
      match fieldLookup inner "schema" with
      | some (.str s) => .ok ⟨⟨s, (fieldLookup inner "data").getD JsonVal.null⟩⟩
      | none => .ok ⟨⟨"", (fieldLookup inner "data").getD JsonVal.null⟩⟩
      | some .null => .ok ⟨⟨"", (fieldLookup inner "data").getD JsonVal.null⟩⟩
      | some _ => .error "json: cannot unmarshal value into field schema of type string"
    | some _ => .error "json: cannot unmarshal value into field data of type UnstructData"
  | _ => .error "json: cannot unmarshal value into type Unstruct"

/-- `parseContexts` (`json_shredder.go` lines 87-111) on the raw document
text: unmarshal, then shred (see `parseContextsData`). -/
def parseContexts (data : String) : Except String (List (String × List JsonVal)) :=
  match jsonDecode data with
  | none => .error "unexpected end of JSON input"
  | some v =>
    match decodeContexts v with
    | .error e => .error e
    | .ok contexts => parseContextsData contexts.data []

/-- `parseUnstruct` (`json_shredder.go` lines 113-126) on the raw document
text: unmarshal, then extract (see `parseUnstructData`). -/
def parseUnstruct (data : String) : Except String (List (String × JsonVal)) :=
  match jsonDecode data with
  | none => .error "unexpected end of JSON input"
  | some v =>
    match decodeUnstruct v with
    | .error e => .error e
    | .ok unstruct => parseUnstructData unstruct

/-! ### Scalar conversions (`event_transformer.go` lines 11-51)

The converter output value type embeds Go's `interface{}` as it flows out of
the converters: strings, 64-bit integers, floats, booleans, timestamps, and
shredded JSON.  No claim inspects a float or timestamp value, so those two
carry the accepted source literal: `strconv.ParseFloat` is modelled by its
syntax (overflow to `ErrRange` is not modelled) and `time.Parse` by the
fixed layout's shape plus calendar range checks. -/

/-- A converted output value (`interface{}` in the Go signature). -/
inductive Value where
  | str (s : String)
  | int (i : Int)
  | float (lit : String)
  | bool (b : Bool)
  | time (lit : String)
  | json (j : JsonVal)
  | jsonArr (elems : List JsonVal)

/-- Digit run to a natural number. -/
def digitsToNat (l : List Char) : Nat :=
  l.foldl (fun acc c => acc * 10 + (c.toNat - 48)) 0

/-- `strconv.ParseInt(s, 10, 64)`: optional sign, one or more digits,
64-bit two's-complement range check. -/
def parseInt64 (s : String) : Except String Int :=
  let split : Bool × List Char :=
    match s.data with
    | '+' :: rest => (false, rest)
    | '-' :: rest => (true, rest)
    | l => (false, l)
  if split.2.isEmpty || !split.2.all isDigitCh then
    .error ("strconv.ParseInt: parsing \"" ++ s ++ "\": invalid syntax")
  else
    let v : Int := if split.1 then -(digitsToNat split.2 : Int) else (digitsToNat split.2 : Int)
    if v < -(2 ^ 63) || v > 2 ^ 63 - 1 then
      .error ("strconv.ParseInt: parsing \"" ++ s ++ "\": value out of range")
    else .ok v

/-- The decimal mantissa-exponent grammar of `strconv.ParseFloat` (hex
floats and the infinity/NaN names are irrelevant to the claims and inputs
here; the value itself is kept as the literal). -/
def isFloatSyntax (s : String) : Bool :=
  let body : List Char :=
    match s.data with
    | '+' :: rest => rest
    | '-' :: rest => rest
    | l => l
  match splitCh 'e' ((body.map fun c => if c = 'E' then 'e' else c)) with
  | [mant] => isMantissa mant
  | [mant, expo] =>
    isMantissa mant &&
      (match expo with
       | '+' :: ds => !ds.isEmpty && ds.all isDigitCh
       | '-' :: ds => !ds.isEmpty && ds.all isDigitCh
       | ds => !ds.isEmpty && ds.all isDigitCh)
  | _ => false
where
  isMantissa (l : List Char) : Bool :=
    match splitCh '.' l with
    | [intPart] => !intPart.isEmpty && intPart.all isDigitCh
    | [intPart, frac] =>
      (intPart.all isDigitCh && frac.all isDigitCh) &&
        !(intPart.isEmpty && frac.isEmpty)
    | _ => false

/-- Days of a month under the proleptic Gregorian rules `time.Parse`
validates against. -/
def daysIn (year month : Nat) : Nat :=
  if month = 2 then
    if year % 4 = 0 && (year % 100 ≠ 0 || year % 400 = 0) then 29 else 28
  else if month = 4 || month = 6 || month = 9 || month = 11 then 30
  else 31

/-- Fixed-width digit run. -/
def isDigits (l : List Char) : Bool := l.all isDigitCh

/-- `time.Parse("2006-01-02 15:04:05.000", s)`: the exact layout shape with
calendar and clock range checks.  Returns the accepted literal. -/
def parseTimestampLit (s : String) : Except String String :=
  match s.data with
  | [y1, y2, y3, y4, '-', mo1, mo2, '-', d1, d2, ' ',
     h1, h2, ':', mi1, mi2, ':', s1, s2, '.', f1, f2, f3] =>
    if isDigits [y1, y2, y3, y4, mo1, mo2, d1, d2, h1, h2, mi1, mi2, s1, s2, f1, f2, f3] then
      let year := digitsToNat [y1, y2, y3, y4]
      let month := digitsToNat [mo1, mo2]
      let day := digitsToNat [d1, d2]
      let hour := digitsToNat [h1, h2]
      let minute := digitsToNat [mi1, mi2]
      let second := digitsToNat [s1, s2]
      if 1 ≤ month && month ≤ 12 && 1 ≤ day && day ≤ daysIn year month &&
          hour ≤ 23 && minute ≤ 59 && second ≤ 59 then
        .ok s
      else
        .error ("parsing time \"" ++ s ++ "\": value out of range")
    else
      .error ("parsing time \"" ++ s ++ "\" as \"2006-01-02 15:04:05.000\": cannot parse")
  | _ =>
    .error ("parsing time \"" ++ s ++ "\" as \"2006-01-02 15:04:05.000\": cannot parse")

/-! ### The converter registry (`event_transformer.go` lines 13-51) -/

/-- `convertString`: passthrough. -/
def convertString (key value : String) : Except String (List (String × Value)) :=
  .ok [(key, Value.str value)]

/-- `convertInt`: base-10 64-bit integer parse. -/
def convertInt (key value : String) : Except String (List (String × Value)) :=
  match parseInt64 value with
  | .error e => .error e
  | .ok i => .ok [(key, Value.int i)]

/-- `convertFloat`: `strconv.ParseFloat(value, 64)`. -/
def convertFloat (key value : String) : Except String (List (String × Value)) :=
  if isFloatSyntax value then .ok [(key, Value.float value)]
  else .error ("strconv.ParseFloat: parsing \"" ++ value ++ "\": invalid syntax")

/-- `convertBool`: `"1"` is true, anything else is false; never fails. -/
def convertBool (key value : String) : Except String (List (String × Value)) :=
  if value = "1" then .ok [(key, Value.bool true)] else .ok [(key, Value.bool false)]

/-- `convertTimestamp`: fixed-layout time parse. -/
def convertTimestamp (key value : String) : Except String (List (String × Value)) :=
  match parseTimestampLit value with
  | .error e => .error e
  | .ok t => .ok [(key, Value.time t)]

/-- `convertUnstruct`: delegates to `parseUnstruct`; the supplied key is
ignored. -/
def convertUnstruct (_key value : String) : Except String (List (String × Value)) :=
  match parseUnstruct value with
  | .error e => .error e
  | .ok pairs => .ok (pairs.map fun p => (p.1, Value.json p.2))

/-- `convertContexts`: delegates to `parseContexts`; the supplied key is
ignored. -/
def convertContexts (_key value : String) : Except String (List (String × Value)) :=
  match parseContexts value with
  | .error e => .error e
  | .ok pairs => .ok (pairs.map fun p => (p.1, Value.jsonArr p.2))

/-- The `converters` map: Go map indexing yields `nil` (here `none`) for an
unregistered name, and calling that `nil` function panics. -/
def converters : String → Option (String → String → Except String (List (String × Value)))
  | "convertString" => some convertString
  | "convertInt" => some convertInt
  | "convertFloat" => some convertFloat
  | "convertBool" => some convertBool
  | "convertTimestamp" => some convertTimestamp
  | "convertUnstruct" => some convertUnstruct
  | "convertContexts" => some convertContexts
  | _ => none

/-! ### The record transformer (`event_transformer.go` lines 187-221) -/

/-- `LatitudeIndex` (line 187). -/
def LatitudeIndex : Nat := 22

/-- `LongitudeIndex` (line 188). -/
def LongitudeIndex : Nat := 23

/-- `strings.Join(xs, sep)`. -/
def goJoin (sep : String) : List String → String
  | [] => ""
  | [x] => x
  | x :: xs => x ++ sep ++ goJoin sep xs

/-- The per-field failure message (line 209). -/
def convErrMsg (k v e : String) : String :=
  "unexpected exception parsing field with key " ++ k ++ " and value " ++ v ++ ": " ++ e

/-- Go map assignment `out[k] = v`: overwrite in place or append. -/
def setKV {α : Type} : List (String × α) → String → α → List (String × α)
  | [], k, v => [(k, v)]
  | (k1, v1) :: rest, k, v =>
    if k1 = k then (k1, v) :: rest else (k1, v1) :: setKV rest k v

/-- Lines 202-204: the geo-location synthesis, with Go's short-circuit
evaluation order; indexing past the end of the event slice panics
(`none`). -/
def geoStep (event : List String) (addGeolocationData : Bool) :
    Option (List (String × Value)) :=
  if addGeolocationData then
    match event.get? LatitudeIndex with
    | none => none
    | some lat =>
      if lat ≠ "" then
        match event.get? LongitudeIndex with
        | none => none
        | some lon =>
          if lon ≠ "" then
            some (setKV [] "geo_location" (Value.str (lat ++ "," ++ lon)))
          else some []
      else some []
  else some []

/-- The zipped (value, key, converter-name) field list the loop walks
(`event[i]`, `t[0]`, `t[1]` for each definition row `t`). -/
def zipFields (event : List String) (knownFields : List (String × String)) :
    List (String × String × String) :=
  (event.zip knownFields).map fun p => (p.1, p.2.1, p.2.2)

/-- The conversion loop (lines 205-216) over the event values zipped with
their field definitions: empty values are skipped before the converter
lookup; a missing converter is a `nil` call, i.e. a panic (`none`);
successful pair lists are merged by map assignment in order; failures append
their message to the error list. -/
def jgeLoop : List (String × String × String) → List (String × Value) →
    List String → Option (List (String × Value) × List String)
  | [], out, errs => some (out, errs)
  | (v, k, conv) :: rest, out, errs =>
    if v = "" then jgeLoop rest out errs
    else
      match converters conv with
      | none => none
      | some f =>
        match f k v with
        | .error e => jgeLoop rest out (errs ++ [convErrMsg k v e])
        | .ok pairs => jgeLoop rest (pairs.foldl (fun o p => setKV o p.1 p.2) out) errs

/-- `jsonifyGoodEvent` (lines 195-221).  Field definitions are embedded as
(name, converter-name) pairs: the Go type is `[][]string`, but every row of
the configuration table has exactly two entries and the code reads exactly
`t[0]` and `t[1]`.  The outer `Option` is `none` exactly when the Go code
panics (nil converter call or out-of-range geo index). -/
def jsonifyGoodEvent (event : List String) (knownFields : List (String × String))
    (addGeolocationData : Bool) : Option (Except String (List (String × Value))) :=
  if event.length ≠ knownFields.length then
    some (.error ("expected " ++ toString knownFields.length ++ " fields, received "
      ++ toString event.length ++ " fields"))
  else
    match geoStep event addGeolocationData with
    | none => none
    | some out0 =>
      match jgeLoop (zipFields event knownFields) out0 [] with
      | none => none
      | some (out, errs) =>
        if errs.length > 0 then some (.error (goJoin ", " errs))
        else some (.ok out)

/-- `Transform` (lines 190-193): split the line on tabs and convert. -/
def Transform (line : String) (knownFields : List (String × String))
    (addGeolocationData : Bool) : Option (Except String (List (String × Value))) :=
  jsonifyGoodEvent (goSplit line '\t') knownFields addGeolocationData

/-- `EnrichedEventFieldTypes` (lines 53-186): the ordered field-definition
table of the 131 enriched-event fields. -/
def EnrichedEventFieldTypes : List (String × String) := [
  ("app_id", "convertString"),
  ("platform", "convertString"),
  ("etl_tstamp", "convertTimestamp"),
  ("collector_tstamp", "convertTimestamp"),
  ("dvce_created_tstamp", "convertTimestamp"),
  ("event", "convertString"),
  ("event_id", "convertString"),
  ("txn_id", "convertInt"),
  ("name_tracker", "convertString"),
  ("v_tracker", "convertString"),
  ("v_collector", "convertString"),
  ("v_etl", "convertString"),
  ("user_id", "convertString"),
  ("user_ipaddress", "convertString"),
  ("user_fingerprint", "convertString"),
  ("domain_userid", "convertString"),
  ("domain_sessionidx", "convertInt"),
  ("network_userid", "convertString"),
  ("geo_country", "convertString"),
  ("geo_region", "convertString"),
  ("geo_city", "convertString"),
  ("geo_zipcode", "convertString"),
  ("geo_latitude", "convertFloat"),
  ("geo_longitude", "convertFloat"),
  ("geo_region_name", "convertString"),
  ("ip_isp", "convertString"),
  ("ip_organization", "convertString"),
  ("ip_domain", "convertString"),
  ("ip_netspeed", "convertString"),
  ("page_url", "convertString"),
  ("page_title", "convertString"),
  ("page_referrer", "convertString"),
  ("page_urlscheme", "convertString"),
  ("page_urlhost", "convertString"),
  ("page_urlport", "convertInt"),
  ("page_urlpath", "convertString"),
  ("page_urlquery", "convertString"),
  ("page_urlfragment", "convertString"),
  ("refr_urlscheme", "convertString"),
  ("refr_urlhost", "convertString"),
  ("refr_urlport", "convertInt"),
  ("refr_urlpath", "convertString"),
  ("refr_urlquery", "convertString"),
  ("refr_urlfragment", "convertString"),
  ("refr_medium", "convertString"),
  ("refr_source", "convertString"),
  ("refr_term", "convertString"),
  ("mkt_medium", "convertString"),
  ("mkt_source", "convertString"),
  ("mkt_term", "convertString"),
  ("mkt_content", "convertString"),
  ("mkt_campaign", "convertString"),
  ("contexts", "convertContexts"),
  ("se_category", "convertString"),
  ("se_action", "convertString"),
  ("se_label", "convertString"),
  ("se_property", "convertString"),
  ("se_value", "convertString"),
  ("unstruct_event", "convertUnstruct"),
  ("tr_orderid", "convertString"),
  ("tr_affiliation", "convertString"),
  ("tr_total", "convertFloat"),
  ("tr_tax", "convertFloat"),
  ("tr_shipping", "convertFloat"),
  ("tr_city", "convertString"),
  ("tr_state", "convertString"),
  ("tr_country", "convertString"),
  ("ti_orderid", "convertString"),
  ("ti_sku", "convertString"),
  ("ti_name", "convertString"),
  ("ti_category", "convertString"),
  ("ti_price", "convertFloat"),
  ("ti_quantity", "convertInt"),
  ("pp_xoffset_min", "convertInt"),
  ("pp_xoffset_max", "convertInt"),
  ("pp_yoffset_min", "convertInt"),
  ("pp_yoffset_max", "convertInt"),
  ("useragent", "convertString"),
  ("br_name", "convertString"),
  ("br_family", "convertString"),
  ("br_version", "convertString"),
  ("br_type", "convertString"),
  ("br_renderengine", "convertString"),
  ("br_lang", "convertString"),
  ("br_features_pdf", "convertBool"),
  ("br_features_flash", "convertBool"),
  ("br_features_java", "convertBool"),
  ("br_features_director", "convertBool"),
  ("br_features_quicktime", "convertBool"),
  ("br_features_realplayer", "convertBool"),
  ("br_features_windowsmedia", "convertBool"),
  ("br_features_gears", "convertBool"),
  ("br_features_silverlight", "convertBool"),
  ("br_cookies", "convertBool"),
  ("br_colordepth", "convertString"),
  ("br_viewwidth", "convertInt"),
  ("br_viewheight", "convertInt"),
  ("os_name", "convertString"),
  ("os_family", "convertString"),
  ("os_manufacturer", "convertString"),
  ("os_timezone", "convertString"),
  ("dvce_type", "convertString"),
  ("dvce_ismobile", "convertBool"),
  ("dvce_screenwidth", "convertInt"),
  ("dvce_screenheight", "convertInt"),
  ("doc_charset", "convertString"),
  ("doc_width", "convertInt"),
  ("doc_height", "convertInt"),
  ("tr_currency", "convertString"),
  ("tr_total_base", "convertFloat"),
  ("tr_tax_base", "convertFloat"),
  ("tr_shipping_base", "convertFloat"),
  ("ti_currency", "convertString"),
  ("ti_price_base", "convertFloat"),
  ("base_currency", "convertString"),
  ("geo_timezone", "convertString"),
  ("mkt_clickid", "convertString"),
  ("mkt_network", "convertString"),
  ("etl_tags", "convertString"),
  ("dvce_sent_tstamp", "convertTimestamp"),
  ("refr_domain_userid", "convertString"),
  ("refr_device_tstamp", "convertTimestamp"),
  ("derived_contexts", "convertContexts"),
  ("domain_sessionid", "convertString"),
  ("derived_tstamp", "convertTimestamp"),
  ("event_vendor", "convertString"),
  ("event_name", "convertString"),
  ("event_format", "convertString"),
  ("event_version", "convertString"),
  ("event_fingerprint", "convertString"),
  ("true_tstamp", "convertTimestamp")]

/-! ### Spec-side helpers for the transformer claims -/

/-- The pairs a converter call produced (none on failure). -/
def okPairs (e : Except String (List (String × Value))) : List (String × Value) :=
  match e with
  | .ok pairs => pairs
  | .error _ => []

/-- Spec-side error collection: the failure message of every converter
invocation on the zipped (value, key, converter-name) fields, in field
order, skipping empty values (converter names missing from the registry are
skipped here; they make the code panic and never contribute a message). -/
def failMsgs : List (String × String × String) → List String
  | [] => []
  | (v, k, c) :: rest =>
    if v = "" then failMsgs rest
    else
      match converters c with
      | none => failMsgs rest
      | some f =>
        match f k v with
        | .error e => convErrMsg k v e :: failMsgs rest
        | .ok _ => failMsgs rest

/-- The pairs the registry produces for a (converter-name, key, value)
invocation: none for a missing converter (the code panics there) or a
failing call. -/
def dispatchPairs (c k v : String) : List (String × Value) :=
  match converters c with
  | some f => okPairs (f k v)
  | none => []

/-! ### Concrete records (used by witnesses and counterexamples) -/

/-- A 24-field record: field 0 is non-empty, fields 22 and 23 hold
latitude/longitude text, the rest are empty. -/
def geoCxEvent : List String := "X" :: List.replicate 21 "" ++ ["1.5", "2.5"]

/-- A 24-entry definition table whose first entry writes the key
`geo_location` through `convertString`. -/
def geoCxFields : List (String × String) :=
  ("geo_location", "convertString") ::
    (List.range 21).map (fun i => ("f" ++ toString i, "convertString")) ++
    [("geo_latitude", "convertString"), ("geo_longitude", "convertString")]

/-- A 24-field record with empty values except latitude/longitude. -/
def geoOkEvent : List String := "" :: List.replicate 21 "" ++ ["1.5", "2.5"]

/-- A 24-entry definition table of plain string fields. -/
def geoOkFields : List (String × String) :=
  ("f99", "convertString") ::
    (List.range 21).map (fun i => ("f" ++ toString i, "convertString")) ++
    [("geo_latitude", "convertString"), ("geo_longitude", "convertString")]

/-- A contexts document with one entry (payload `"first"`). -/
def ctxDemo1 : String :=
  "\x7b\"schema\":\"s\",\"data\":[\x7b\"schema\":\"iglu:com.acme/myEvent/jsonschema/1-0-0\",\"data\":\"first\"\x7d]\x7d"

/-- A contexts document with one entry of the same model (payload
`"second"`). -/
def ctxDemo2 : String :=
  "\x7b\"schema\":\"s\",\"data\":[\x7b\"schema\":\"iglu:com.acme/myEvent/jsonschema/1-0-2\",\"data\":\"second\"\x7d]\x7d"

/-! ## Theorems -/

/-! ### Facts about `splitCh` and `joinCh` -/

theorem splitCh_ne_nil (sep : Char) (l : List Char) : splitCh sep l ≠ [] := by
  cases l with
  | nil => simp [splitCh]
  | cons c rest =>
    simp only [splitCh]
    split
    · simp
    · cases h : splitCh sep rest <;> simp

@[simp] theorem splitCh_nil (sep : Char) : splitCh sep [] = [[]] := rfl

theorem splitCh_cons_sep (sep : Char) (l : List Char) :
    splitCh sep (sep :: l) = [] :: splitCh sep l := by
  simp [splitCh]

theorem splitCh_cons_ne (sep c : Char) (l : List Char) (h : c ≠ sep) :
    splitCh sep (c :: l) =
      (c :: (splitCh sep l).headI) :: (splitCh sep l).tail := by
  simp only [splitCh, if_neg h]
  cases hl : splitCh sep l with
  | nil => exact absurd hl (splitCh_ne_nil sep l)
  | cons s ss => simp [List.headI]

/-- Splitting a separator-free prefix: the prefix is glued onto the head
segment of the split of the remainder. -/
theorem splitCh_append (sep : Char) (xs l : List Char) (h : sep ∉ xs) :
    splitCh sep (xs ++ l) =
      (xs ++ (splitCh sep l).headI) :: (splitCh sep l).tail := by
  induction xs with
  | nil =>
    simp only [List.nil_append]
    cases hl : splitCh sep l with
    | nil => exact absurd hl (splitCh_ne_nil sep l)
    | cons s ss => simp [List.headI]
  | cons c cs ih =>
    have hc : c ≠ sep := by
      intro hc; exact h (hc ▸ List.mem_cons_self c cs)
    have hcs : sep ∉ cs := fun hm => h (List.mem_cons_of_mem _ hm)
    rw [List.cons_append, splitCh_cons_ne sep c (cs ++ l) hc, ih hcs]
    simp [List.headI]

/-- A separator-free list splits into itself alone. -/
theorem splitCh_of_not_mem (sep : Char) (xs : List Char) (h : sep ∉ xs) :
    splitCh sep xs = [xs] := by
  have := splitCh_append sep xs [] h
  simpa using this

/-- Splitting around one explicit separator occurrence. -/
theorem splitCh_append_sep (sep : Char) (xs l : List Char) (h : sep ∉ xs) :
    splitCh sep (xs ++ sep :: l) = xs :: splitCh sep l := by
  rw [splitCh_append sep xs (sep :: l) h, splitCh_cons_sep]
  simp [List.headI]

theorem joinCh_cons_cons (sep c : Char) (s : List Char) (ss : List (List Char)) :
    joinCh sep ((c :: s) :: ss) = c :: joinCh sep (s :: ss) := by
  cases ss <;> simp [joinCh]

/-- `joinCh` undoes `splitCh`. -/
theorem joinCh_splitCh (sep : Char) (l : List Char) :
    joinCh sep (splitCh sep l) = l := by
  induction l with
  | nil => simp [joinCh]
  | cons c rest ih =>
    by_cases hc : c = sep
    · rw [hc, splitCh_cons_sep]
      cases hs : splitCh sep rest with
      | nil => exact absurd hs (splitCh_ne_nil sep rest)
      | cons s ss =>
        have hj : joinCh sep ([] :: s :: ss) = sep :: joinCh sep (s :: ss) := by
          simp [joinCh]
        rw [hj, ← hs, ih]
    · rw [splitCh_cons_ne sep c rest hc]
      cases hs : splitCh sep rest with
      | nil => exact absurd hs (splitCh_ne_nil sep rest)
      | cons s ss =>
        simp only [List.headI, List.tail_cons]
        rw [joinCh_cons_cons, ← hs, ih]

theorem headI_splitCh (sep : Char) (l : List Char) :
    (splitCh sep l).headI = l.takeWhile fun c => c ≠ sep := by
  induction l with
  | nil => simp [List.takeWhile]
  | cons c rest ih =>
    by_cases hc : c = sep
    · rw [hc, splitCh_cons_sep]
      simp [List.takeWhile]
    · rw [splitCh_cons_ne sep c rest hc]
      have hh : ((c :: (splitCh sep rest).headI) :: (splitCh sep rest).tail).headI
          = c :: (splitCh sep rest).headI := rfl
      rw [hh, ih, List.takeWhile_cons, if_pos (decide_eq_true hc)]

/-! ### Character-class facts -/

theorem isModelCh_digits {l : List Char} (h : isModelCh l = true) :
    ∀ c ∈ l, isDigitCh c = true := by
  cases l with
  | nil => simp [isModelCh] at h
  | cons c rest =>
    simp only [isModelCh, Bool.and_eq_true] at h
    intro d hd
    rcases List.mem_cons.mp hd with rfl | hm
    · have h1 := h.1
      simp only [isNonZeroDigitCh, Bool.and_eq_true, decide_eq_true_eq] at h1
      simp only [isDigitCh, Bool.and_eq_true, decide_eq_true_eq]
      exact ⟨le_trans (by decide : ('0' : Char) ≤ '1') h1.1, h1.2⟩
    · exact List.all_eq_true.mp h.2 d hm

theorem isRevCh_digits {l : List Char} (h : isRevCh l = true) :
    ∀ c ∈ l, isDigitCh c = true := by
  simp only [isRevCh, Bool.or_eq_true, decide_eq_true_eq] at h
  rcases h with h | h
  · subst h; intro c hc
    rcases List.mem_singleton.mp hc with rfl
    decide
  · exact isModelCh_digits h

theorem isDigitCh_ne_slash {c : Char} (h : isDigitCh c = true) : c ≠ '/' := by
  rintro rfl; simp [isDigitCh] at h

theorem isDigitCh_ne_dash {c : Char} (h : isDigitCh c = true) : c ≠ '-' := by
  rintro rfl; simp [isDigitCh] at h

theorem isVendorChar_ne_slash {c : Char} (h : isVendorChar c = true) : c ≠ '/' := by
  rintro rfl; simp [isVendorChar] at h

theorem isNameChar_ne_slash {c : Char} (h : isNameChar c = true) : c ≠ '/' := by
  rintro rfl; simp [isNameChar] at h

theorem asString_data (s : String) : s.data.asString = s := by
  cases s; rfl

@[simp] theorem data_asString (l : List Char) : (List.asString l).data = l := rfl

/-! ### The schema parser against the grammar -/

theorem extractSchemaCore_of_grammar {uri : String} {sch : Schema}
    (h : MatchesIgluGrammar uri sch) : extractSchemaCore uri.data = some sch := by
  obtain ⟨hu, hv0, hv, hn0, hn, hf0, hf, m, r, a, hver, hm, hr, ha⟩ := h
  have hdata : uri.data =
      'i' :: 'g' :: 'l' :: 'u' :: ':' ::
        (sch.vendor.data ++ '/' :: (sch.name.data ++ '/' ::
          (sch.format.data ++ '/' :: sch.version.data))) := by
    rw [hu]
    simp [String.data_append, List.append_assoc]
  have hvs : '/' ∉ sch.vendor.data := fun hmem =>
    isVendorChar_ne_slash (hv _ hmem) rfl
  have hns : '/' ∉ sch.name.data := fun hmem =>
    isNameChar_ne_slash (hn _ hmem) rfl
  have hfs : '/' ∉ sch.format.data := fun hmem =>
    isNameChar_ne_slash (hf _ hmem) rfl
  have hverdig : ∀ c ∈ sch.version.data, isDigitCh c = true ∨ c = '-' := by
    intro c hc
    rw [hver] at hc
    rcases List.mem_append.mp hc with hc | hc
    · exact Or.inl (isModelCh_digits hm c hc)
    · rcases List.mem_cons.mp hc with rfl | hc
      · exact Or.inr rfl
      · rcases List.mem_append.mp hc with hc | hc
        · exact Or.inl (isRevCh_digits hr c hc)
        · rcases List.mem_cons.mp hc with rfl | hc
          · exact Or.inr rfl
          · exact Or.inl (isRevCh_digits ha c hc)
  have hvers : '/' ∉ sch.version.data := by
    intro hmem
    rcases hverdig _ hmem with hd | hd
    · exact isDigitCh_ne_slash hd rfl
    · exact absurd hd (by decide)
  have hsplit : splitCh '/' (sch.vendor.data ++ '/' :: (sch.name.data ++ '/' ::
      (sch.format.data ++ '/' :: sch.version.data))) =
      [sch.vendor.data, sch.name.data, sch.format.data, sch.version.data] := by
    rw [splitCh_append_sep _ _ _ hvs, splitCh_append_sep _ _ _ hns,
      splitCh_append_sep _ _ _ hfs, splitCh_of_not_mem _ _ hvers]
  have hmd : '-' ∉ m := fun hmem => isDigitCh_ne_dash (isModelCh_digits hm _ hmem) rfl
  have hrd : '-' ∉ r := fun hmem => isDigitCh_ne_dash (isRevCh_digits hr _ hmem) rfl
  have had : '-' ∉ a := fun hmem => isDigitCh_ne_dash (isRevCh_digits ha _ hmem) rfl
  have hversplit : splitCh '-' sch.version.data = [m, r, a] := by
    rw [hver, splitCh_append_sep _ _ _ hmd, splitCh_append_sep _ _ _ hrd,
      splitCh_of_not_mem _ _ had]
  have hemp : ∀ s : String, s ≠ "" → s.data.isEmpty = false := by
    intro s hs
    rw [List.isEmpty_eq_false]
    intro hd
    exact hs (String.ext hd)
  have hok : schemaGroupsOk sch.vendor.data sch.name.data sch.format.data
      sch.version.data = true := by
    simp only [schemaGroupsOk, Bool.and_eq_true, Bool.not_eq_true']
    refine ⟨⟨⟨⟨⟨⟨?_, ?_⟩, ?_⟩, ?_⟩, ?_⟩, ?_⟩, ?_⟩
    · exact hemp _ hv0
    · exact List.all_eq_true.mpr hv
    · exact hemp _ hn0
    · exact List.all_eq_true.mpr hn
    · exact hemp _ hf0
    · exact List.all_eq_true.mpr hf
    · simp only [isVersionCh, hversplit, hm, hr, ha, Bool.and_self]
  rw [hdata]
  simp only [extractSchemaCore, hsplit, hok, if_true]
  rw [asString_data, asString_data, asString_data, asString_data]

theorem grammar_of_extractSchemaCore {uri : String} {sch : Schema}
    (h : extractSchemaCore uri.data = some sch) : MatchesIgluGrammar uri sch := by
  have hne : ∀ s : String, s.data.isEmpty = false → s ≠ "" := by
    intro s hs hc
    rw [hc] at hs
    simp at hs
  unfold extractSchemaCore at h
  split at h
  · next rest heq =>
    split at h
    · next v n f ver hsplit =>
      split at h
      · next hok =>
        have hsch : sch = ⟨v.asString, n.asString, f.asString, ver.asString⟩ :=
          (Option.some.inj h).symm
        simp only [schemaGroupsOk, Bool.and_eq_true, Bool.not_eq_true'] at hok
        obtain ⟨⟨⟨⟨⟨⟨hv0, hv⟩, hn0⟩, hn⟩, hf0⟩, hf⟩, hver⟩ := hok
        have hrest : rest = v ++ '/' :: (n ++ '/' :: (f ++ '/' :: ver)) := by
          have hj := joinCh_splitCh '/' rest
          rw [hsplit] at hj
          simpa [joinCh, List.append_assoc] using hj.symm
        subst hsch
        refine ⟨?_, ?_, ?_, ?_, ?_, ?_, ?_, ?_⟩
        · apply String.ext
          rw [heq, hrest]
          simp [String.data_append, List.append_assoc]
        · exact hne _ hv0
        · intro c hc; exact List.all_eq_true.mp hv c hc
        · exact hne _ hn0
        · intro c hc; exact List.all_eq_true.mp hn c hc
        · exact hne _ hf0
        · intro c hc; exact List.all_eq_true.mp hf c hc
        · unfold isVersionCh at hver
          split at hver
          · next m r a hvsp =>
            simp only [Bool.and_eq_true] at hver
            refine ⟨m, r, a, ?_, hver.1.1, hver.1.2, hver.2⟩
            have hj := joinCh_splitCh '-' ver
            rw [hvsp] at hj
            simpa [joinCh, List.append_assoc] using hj.symm
          · exact absurd hver (by simp)
      · exact absurd h (by simp)
    · exact absurd h (by simp)
  · exact absurd h (by simp)

theorem camelIns_eq_spec (l : List Char) : camelIns l = specInsList l := by
  induction l with
  | nil => rfl
  | cons c rest ih =>
    cases rest with
    | nil => rfl
    | cons d rest2 =>
      unfold specInsList at ih ⊢
      simp only [List.tail_cons, List.zip_cons_cons, List.map_cons,
        List.flatten_cons] at ih ⊢
      unfold camelIns
      rw [ih]
      by_cases hb : camelBoundary c d = true
      · rw [if_pos (by simpa [camelBoundary] using hb)]
        simp [hb]
      · rw [if_neg (by simpa [camelBoundary] using hb)]
        simp [hb]

/-! ### Claim theorems: C2 and C5 -/

/-- Claim C2 (confirmed).  Field-name canonicalization: for every prefix and
every schema URI accepted by the parser, `fixSchema` returns exactly
`<prefix>_<snake_vendor>_<snake_name>_<model>`, where `snake_vendor` is the
vendor with every `.` replaced by `_` then lower-cased, `snake_name` is the
name with an underscore inserted before every capital letter preceded by a
non-capital non-underscore character then lower-cased, and `model` is only
the leading integer component of the version triple. -/
theorem fixSchema_canonical_shape (pfx uri : String) (sch : Schema)
    (h : extractSchema uri = .ok sch) :
    fixSchema pfx uri =
      .ok (pfx ++ "_" ++ specSnakeVendor sch.vendor ++ "_" ++
        specSnakeName sch.name ++ "_" ++ specModel sch.version) := by
  have hv : (lowerCh (replaceDots sch.vendor.data)).asString =
      specSnakeVendor sch.vendor := by
    simp [lowerCh, replaceDots, specSnakeVendor, List.map_map, Function.comp]
  have hn : (lowerCh (camelIns sch.name.data)).asString =
      specSnakeName sch.name := by
    simp only [lowerCh, specSnakeName, camelIns_eq_spec]
  have hm : ((splitCh '-' sch.version.data).headI).asString =
      specModel sch.version := by
    rw [headI_splitCh, specModel]
  have hfix : fixSchema pfx uri =
      .ok (pfx ++ "_" ++ (lowerCh (replaceDots sch.vendor.data)).asString ++ "_" ++
        (lowerCh (camelIns sch.name.data)).asString ++ "_" ++
        ((splitCh '-' sch.version.data).headI).asString) := by
    unfold fixSchema
    rw [h]
  rw [hfix, hv, hn, hm]

/-- Witness for `fixSchema_canonical_shape` at a concrete camel-cased
schema URI. -/
theorem fixSchema_canonical_shape_witness :
    fixSchema "contexts" "iglu:com.acme/MyCamelEvent/jsonschema/2-1-3" =
      .ok ("contexts" ++ "_" ++ specSnakeVendor "com.acme" ++ "_" ++
        specSnakeName "MyCamelEvent" ++ "_" ++ specModel "2-1-3") :=
  fixSchema_canonical_shape "contexts" "iglu:com.acme/MyCamelEvent/jsonschema/2-1-3"
    ⟨"com.acme", "MyCamelEvent", "jsonschema", "2-1-3"⟩ rfl

/-- Claim C5 (confirmed).  Schema-URI parsing: every string decomposing per
the grammar `iglu:<vendor>/<name>/<format>/<model>-<revision>-<addition>`
parses to exactly its component substrings, and every other string makes the
parser fail with the message naming the offending string and the grammar;
no partial identity is ever returned. -/
theorem extractSchema_grammar :
    (∀ uri sch, MatchesIgluGrammar uri sch → extractSchema uri = .ok sch) ∧
    (∀ uri, (¬ ∃ sch, MatchesIgluGrammar uri sch) →
      extractSchema uri = .error (schemaErrMsg uri)) := by
  constructor
  · intro uri sch h
    unfold extractSchema
    rw [extractSchemaCore_of_grammar h]
  · intro uri h
    unfold extractSchema
    cases hc : extractSchemaCore uri.data with
    | none => rfl
    | some sch => exact absurd ⟨sch, grammar_of_extractSchemaCore hc⟩ h

/-- Witness for `extractSchema_grammar`: a valid URI round-trips its
components, and a leading-zero model makes parsing fail with the
diagnostic message. -/
theorem extractSchema_grammar_witness :
    extractSchema "iglu:com.acme/myEvent/jsonschema/1-0-0" =
      .ok ⟨"com.acme", "myEvent", "jsonschema", "1-0-0"⟩ ∧
    extractSchema "iglu:com.acme/myEvent/jsonschema/01-0-0" =
      .error (schemaErrMsg "iglu:com.acme/myEvent/jsonschema/01-0-0") := by
  constructor
  · exact extractSchema_grammar.1 _ ⟨"com.acme", "myEvent", "jsonschema", "1-0-0"⟩
      ⟨rfl, by decide, by decide, by decide, by decide, by decide, by decide,
        ['1'], ['0'], ['0'], by decide, by decide, by decide, by decide⟩
  · refine extractSchema_grammar.2 _ ?_
    rintro ⟨sch, hg⟩
    have h1 := extractSchemaCore_of_grammar hg
    rw [show extractSchemaCore ("iglu:com.acme/myEvent/jsonschema/01-0-0").data
      = none from rfl] at h1
    exact Option.noConfusion h1

/-! ### Association-list and grouping lemmas -/

theorem isOk_iff_exists {α : Type} (e : Except String α) :
    e.isOk = true ↔ ∃ x, e = .ok x := by
  cases e <;> simp [Except.isOk, Except.toBool]

theorem lookupKV_insertGrouped (acc : List (String × List JsonVal))
    (k : String) (v : JsonVal) (k2 : String) :
    lookupKV (insertGrouped acc k v) k2 =
      if k2 = k then some ((lookupKV acc k).getD [] ++ [v])
      else lookupKV acc k2 := by
  induction acc with
  | nil =>
    by_cases h : k2 = k
    · subst h; simp [insertGrouped, lookupKV]
    · rw [if_neg h]
      simp only [insertGrouped, lookupKV]
      rw [if_neg (fun he => h he.symm)]
  | cons p rest ih =>
    obtain ⟨k1, vs⟩ := p
    by_cases h1 : k1 = k
    · simp only [insertGrouped, if_pos h1]
      by_cases h2 : k2 = k
      · have h12 : k1 = k2 := h1.trans h2.symm
        simp only [lookupKV, if_pos h12, if_pos h1, if_pos h2]
        simp
      · have h12 : ¬ k1 = k2 := fun he => h2 (he.symm.trans h1)
        simp only [lookupKV, if_neg h12, if_neg h2]
    · simp only [insertGrouped, if_neg h1]
      by_cases h3 : k1 = k2
      · have hk : ¬ k2 = k := fun he => h1 (h3.trans he)
        simp only [lookupKV, if_pos h3, if_neg hk]
      · simp only [lookupKV, if_neg h3]
        rw [ih]
        by_cases h2 : k2 = k
        · rw [if_pos h2, if_pos h2, if_neg h1]
        · rw [if_neg h2, if_neg h2]

theorem keys_insertGrouped (acc : List (String × List JsonVal))
    (k : String) (v : JsonVal) :
    (insertGrouped acc k v).map Prod.fst =
      if k ∈ acc.map Prod.fst then acc.map Prod.fst
      else acc.map Prod.fst ++ [k] := by
  induction acc with
  | nil => simp [insertGrouped]
  | cons p rest ih =>
    obtain ⟨k1, vs⟩ := p
    by_cases h1 : k1 = k
    · subst h1
      simp [insertGrouped]
    · simp only [insertGrouped, if_neg h1, List.map_cons, ih]
      have hmem : k ∈ (k1, vs).1 :: rest.map Prod.fst ↔ k ∈ rest.map Prod.fst := by
        simp only [List.mem_cons]
        constructor
        · rintro (h | h)
          · exact absurd h.symm h1
          · exact h
        · exact Or.inr
      by_cases h2 : k ∈ rest.map Prod.fst
      · rw [if_pos h2, if_pos (by simpa using hmem.mpr h2)]
      · rw [if_neg h2, if_neg (by simpa using fun hx => h2 (hmem.mp hx))]
        simp

theorem nodup_keys_insertGrouped (acc : List (String × List JsonVal))
    (k : String) (v : JsonVal) (h : (acc.map Prod.fst).Nodup) :
    ((insertGrouped acc k v).map Prod.fst).Nodup := by
  rw [keys_insertGrouped]
  by_cases hm : k ∈ acc.map Prod.fst
  · rwa [if_pos hm]
  · rw [if_neg hm]
    simp [List.nodup_append, h, hm]

theorem lookupKV_eq_none_iff {α : Type} (l : List (String × α)) (k : String) :
    lookupKV l k = none ↔ k ∉ l.map Prod.fst := by
  induction l with
  | nil => simp [lookupKV]
  | cons p rest ih =>
    obtain ⟨k1, v⟩ := p
    simp only [lookupKV, List.map_cons, List.mem_cons]
    by_cases h : k1 = k
    · subst h; simp
    · rw [if_neg h, ih]
      constructor
      · rintro hnone (h1 | h1)
        · exact h h1.symm
        · exact hnone h1
      · intro hn
        exact fun hm => hn (Or.inr hm)

theorem mem_iff_lookupKV {α : Type} (l : List (String × α))
    (hnd : (l.map Prod.fst).Nodup) (k : String) (v : α) :
    (k, v) ∈ l ↔ lookupKV l k = some v := by
  induction l with
  | nil => simp [lookupKV]
  | cons p rest ih =>
    obtain ⟨k1, v1⟩ := p
    simp only [List.map_cons, List.nodup_cons] at hnd
    simp only [List.mem_cons, lookupKV]
    by_cases h : k1 = k
    · rw [if_pos h]
      constructor
      · rintro (h1 | h1)
        · rw [(Prod.mk.inj h1).2]
        · have hk : k ∉ rest.map Prod.fst := by rw [← h]; exact hnd.1
          exact absurd (List.mem_map_of_mem Prod.fst h1) hk
      · intro h1
        refine Or.inl ?_
        rw [Option.some.inj h1, h]
    · rw [if_neg h]
      rw [← ih hnd.2]
      constructor
      · rintro (h1 | h1)
        · exact absurd (congrArg Prod.fst h1).symm h
        · exact h1
      · exact Or.inr

/-! ### The context-shredding loop -/

theorem parseContextsData_isOk (l : List ContextsData)
    (acc : List (String × List JsonVal))
    (h : (l.all fun c => (fixSchema "contexts" c.schema).isOk) = true) :
    (parseContextsData l acc).isOk = true := by
  induction l generalizing acc with
  | nil => rfl
  | cons c rest ih =>
    simp only [List.all_cons, Bool.and_eq_true] at h
    obtain ⟨s, hs⟩ := (isOk_iff_exists _).mp h.1
    simp only [parseContextsData, hs]
    exact ih _ h.2

theorem parseContextsData_isOk_false (l : List ContextsData)
    (acc : List (String × List JsonVal))
    (h : (l.all fun c => (fixSchema "contexts" c.schema).isOk) = false) :
    (parseContextsData l acc).isOk = false := by
  induction l generalizing acc with
  | nil => simp at h
  | cons c rest ih =>
    simp only [List.all_cons] at h
    cases hfix : fixSchema "contexts" c.schema with
    | error e => simp only [parseContextsData, hfix]; rfl
    | ok s =>
      simp only [parseContextsData, hfix]
      rw [hfix] at h
      have hiso : (Except.ok s : Except String String).isOk = true := rfl
      rw [hiso, Bool.true_and] at h
      exact ih _ h

theorem lookupKV_parseContextsData (l : List ContextsData) :
    ∀ acc out, parseContextsData l acc = .ok out → ∀ k,
      lookupKV out k =
        Option.elim (lookupKV acc k)
          (if k ∈ ctxNames l then some (ctxPayloads k l) else none)
          (fun vs => some (vs ++ ctxPayloads k l)) := by
  induction l with
  | nil =>
    intro acc out hout k
    simp only [parseContextsData] at hout
    obtain rfl := Except.ok.inj hout
    have hnames : ctxNames ([] : List ContextsData) = [] := rfl
    have hpay : ctxPayloads k ([] : List ContextsData) = [] := rfl
    rw [hnames, hpay]
    cases hl : lookupKV acc k <;> simp
  | cons c rest ih =>
    intro acc out hout k
    cases hfix : fixSchema "contexts" c.schema with
    | error e =>
      simp only [parseContextsData, hfix] at hout
      exact absurd hout (by simp)
    | ok s =>
      simp only [parseContextsData, hfix] at hout
      have hrec := ih (insertGrouped acc s c.data) out hout k
      rw [lookupKV_insertGrouped] at hrec
      have hnames : ctxNames (c :: rest) = s :: ctxNames rest := by
        simp [ctxNames, List.filterMap_cons, hfix, Except.toOption]
      have hpay : ctxPayloads k (c :: rest) =
          (if s = k then c.data :: ctxPayloads k rest else ctxPayloads k rest) := by
        simp only [ctxPayloads, List.filterMap_cons, hfix]
        by_cases hsk : s = k
        · rw [if_pos hsk, if_pos hsk]
        · rw [if_neg hsk, if_neg hsk]
      by_cases h2 : k = s
      · have hpay2 : ctxPayloads k (c :: rest) = c.data :: ctxPayloads k rest := by
          rw [hpay, if_pos h2.symm]
        rw [if_pos h2] at hrec
        simp only [Option.elim] at hrec
        rw [hrec, hpay2, hnames, h2]
        cases hacc : lookupKV acc s with
        | none => simp [Option.elim, List.mem_cons]
        | some vs => simp [Option.elim, List.append_assoc]
      · have hpay2 : ctxPayloads k (c :: rest) = ctxPayloads k rest := by
          rw [hpay, if_neg (fun he => h2 he.symm)]
        rw [if_neg h2] at hrec
        rw [hrec, hpay2, hnames]
        have hmm : (k ∈ s :: ctxNames rest) ↔ k ∈ ctxNames rest := by
          simp [List.mem_cons, h2]
        cases hacc : lookupKV acc k with
        | some vs => simp [Option.elim]
        | none =>
          simp only [Option.elim]
          simp [hmm]

theorem nodup_parseContextsData (l : List ContextsData) :
    ∀ acc out, parseContextsData l acc = .ok out →
      (acc.map Prod.fst).Nodup → (out.map Prod.fst).Nodup := by
  induction l with
  | nil =>
    intro acc out hout hnd
    simp only [parseContextsData] at hout
    obtain rfl := Except.ok.inj hout
    exact hnd
  | cons c rest ih =>
    intro acc out hout hnd
    cases hfix : fixSchema "contexts" c.schema with
    | error e =>
      simp only [parseContextsData, hfix] at hout
      exact absurd hout (by simp)
    | ok s =>
      simp only [parseContextsData, hfix] at hout
      exact ih _ _ hout (nodup_keys_insertGrouped _ _ _ hnd)

/-! ### Claim theorems: C1, C3, C10 -/

/-- Claim C1 (confirmed).  Context shredding: when every entry of a contexts
envelope canonicalizes, the result is one pair per distinct canonical name
(distinct keys), and a pair `(k, vs)` occurs in the result exactly when `k`
is the canonical name of some entry and `vs` is the sequence of every entry
payload whose schema canonicalizes to `k`, in first-seen order; when any
entry fails to canonicalize the whole operation fails with no partial
result.  Membership is stated set-wise, leaving the iteration order over
distinct names unspecified. -/
theorem parseContexts_grouping (cs : Contexts) :
    ((cs.data.all fun c => (fixSchema "contexts" c.schema).isOk) = true →
      (parseContextsData cs.data []).isOk = true ∧
      ∀ out, parseContextsData cs.data [] = .ok out →
        (out.map Prod.fst).Nodup ∧
        ∀ k vs, ((k, vs) ∈ out ↔
          k ∈ ctxNames cs.data ∧ vs = ctxPayloads k cs.data)) ∧
    ((cs.data.all fun c => (fixSchema "contexts" c.schema).isOk) = false →
      (parseContextsData cs.data []).isOk = false) := by
  constructor
  · intro hall
    refine ⟨parseContextsData_isOk _ _ hall, ?_⟩
    intro out hout
    have hnd := nodup_parseContextsData _ _ _ hout (by simp)
    refine ⟨hnd, ?_⟩
    intro k vs
    rw [mem_iff_lookupKV out hnd k vs]
    have hlook := lookupKV_parseContextsData cs.data [] out hout k
    have hnil : lookupKV ([] : List (String × List JsonVal)) k = none := rfl
    rw [hnil] at hlook
    simp only [Option.elim] at hlook
    rw [hlook]
    by_cases hm : k ∈ ctxNames cs.data
    · rw [if_pos hm]
      constructor
      · intro he
        exact ⟨hm, (Option.some.inj he).symm⟩
      · rintro ⟨-, rfl⟩
        rfl
    · rw [if_neg hm]
      constructor
      · intro he
        exact Option.noConfusion he
      · rintro ⟨hk, -⟩
        exact absurd hk hm
  · exact parseContextsData_isOk_false _ _

/-- Witness for `parseContexts_grouping`: an envelope with two entries
sharing a schema and one distinct entry shreds successfully into two
distinctly named groups, and the shared group collects both payloads in
order. -/
theorem parseContexts_grouping_witness :
    (parseContextsData ctxExample.data []).isOk = true ∧
    (("contexts_com_acme_my_event_1", [JsonVal.str "a", JsonVal.str "c"]) ∈
        [("contexts_com_acme_my_event_1", [JsonVal.str "a", JsonVal.str "c"]),
         ("contexts_com_acme_other_2", [JsonVal.str "b"])] ↔
      "contexts_com_acme_my_event_1" ∈ ctxNames ctxExample.data ∧
      [JsonVal.str "a", JsonVal.str "c"] =
        ctxPayloads "contexts_com_acme_my_event_1" ctxExample.data) := by
  refine ⟨((parseContexts_grouping ctxExample).1 rfl).1, ?_⟩
  exact (((parseContexts_grouping ctxExample).1 rfl).2 _ rfl).2 _ _

/-- Claim C3 (confirmed).  Unstruct shredding: an absent or JSON-null inner
`data` field (both decode to the `nil` interface) fails with the
missing-inner-data error; with inner data present and a canonicalizing
schema (prefix `unstruct_event`), exactly one pair is returned. -/
theorem parseUnstruct_missing_inner (u : Unstruct) :
    (u.data.data = JsonVal.null →
      parseUnstructData u =
        .error "could not extract inner data field from unstructured event") ∧
    (u.data.data ≠ JsonVal.null →
      ∀ s, fixSchema "unstruct_event" u.data.schema = .ok s →
        parseUnstructData u = .ok [(s, u.data.data)]) := by
  constructor
  · intro h
    unfold parseUnstructData
    rw [h]
    rfl
  · intro h s hs
    have hnull : u.data.data.isNull = false := by
      cases hd : u.data.data
      · exact absurd hd h
      all_goals rfl
    unfold parseUnstructData
    rw [hnull, hs]
    rfl

/-- Witness for `parseUnstruct_missing_inner`: a null inner payload fails,
a present one yields the single canonical pair. -/
theorem parseUnstruct_missing_inner_witness :
    parseUnstructData ⟨⟨"iglu:com.acme/myEvent/jsonschema/1-0-0", JsonVal.null⟩⟩ =
      .error "could not extract inner data field from unstructured event" ∧
    parseUnstructData ⟨⟨"iglu:com.acme/myEvent/jsonschema/1-0-0", JsonVal.str "x"⟩⟩ =
      .ok [("unstruct_event_com_acme_my_event_1", JsonVal.str "x")] :=
  ⟨(parseUnstruct_missing_inner _).1 rfl,
   (parseUnstruct_missing_inner _).2 (fun hc => JsonVal.noConfusion hc) _ rfl⟩

/-- Claim C10 (confirmed).  Context shredding performs no missing-inner-data
check: an entry whose inner `data` is absent or JSON null (the `nil`
interface, `JsonVal.null`) causes no failure — provided every schema
canonicalizes, shredding succeeds and the null payload is grouped under the
entry's canonical name inside the group's sequence. -/
theorem parseContexts_no_inner_check (cs : Contexts)
    (hall : (cs.data.all fun c => (fixSchema "contexts" c.schema).isOk) = true) :
    (parseContextsData cs.data []).isOk = true ∧
    (∀ c ∈ cs.data, c.data = JsonVal.null →
      ∀ k, fixSchema "contexts" c.schema = .ok k →
        ∀ out, parseContextsData cs.data [] = .ok out →
          (k, ctxPayloads k cs.data) ∈ out ∧
          JsonVal.null ∈ ctxPayloads k cs.data) := by
  refine ⟨parseContextsData_isOk _ _ hall, ?_⟩
  intro c hc hnull k hk out hout
  have hnd := nodup_parseContextsData _ _ _ hout (by simp)
  have hmemname : k ∈ ctxNames cs.data := by
    refine List.mem_filterMap.mpr ⟨c, hc, ?_⟩
    rw [hk]
    rfl
  have hmempay : JsonVal.null ∈ ctxPayloads k cs.data := by
    refine List.mem_filterMap.mpr ⟨c, hc, ?_⟩
    rw [hk]
    simp [hnull]
  refine ⟨?_, hmempay⟩
  rw [mem_iff_lookupKV out hnd]
  have hlook := lookupKV_parseContextsData cs.data [] out hout k
  have hnil : lookupKV ([] : List (String × List JsonVal)) k = none := rfl
  rw [hnil] at hlook
  simp only [Option.elim] at hlook
  rw [hlook, if_pos hmemname]

/-- Witness for `parseContexts_no_inner_check`: an envelope entry with a
null payload shreds successfully and the null appears in its group. -/
theorem parseContexts_no_inner_check_witness :
    (parseContextsData ctxExampleNull.data []).isOk = true ∧
    (("contexts_com_acme_my_event_1",
        ctxPayloads "contexts_com_acme_my_event_1" ctxExampleNull.data) ∈
        [("contexts_com_acme_my_event_1", [JsonVal.null, JsonVal.str "b"])] ∧
      JsonVal.null ∈
        ctxPayloads "contexts_com_acme_my_event_1" ctxExampleNull.data) := by
  refine ⟨(parseContexts_no_inner_check ctxExampleNull rfl).1, ?_⟩
  exact (parseContexts_no_inner_check ctxExampleNull rfl).2 _
    (List.mem_cons_self _ _) rfl _ rfl _ rfl

/-! ### The conversion loop -/

/-- An entry with an empty raw value contributes nothing to the loop: it is
dropped before the converter lookup, regardless of its key or converter
name. -/
theorem jgeLoop_empty_skip (pre : List (String × String × String)) :
    ∀ post out errs k c,
      jgeLoop (pre ++ ("", k, c) :: post) out errs = jgeLoop (pre ++ post) out errs := by
  induction pre with
  | nil =>
    intro post out errs k c
    simp [jgeLoop]
  | cons p pre2 ih =>
    intro post out errs k c
    obtain ⟨v, k1, c1⟩ := p
    by_cases hv : v = ""
    · simp only [List.cons_append, jgeLoop, if_pos hv]
      exact ih post out errs k c
    · cases hc : converters c1 with
      | none => simp only [List.cons_append, jgeLoop, if_neg hv, hc]
      | some f =>
        cases hf : f k1 v with
        | error e =>
          simp only [List.cons_append, jgeLoop, if_neg hv, hc, hf]
          exact ih post out (errs ++ [convErrMsg k1 v e]) k c
        | ok pairs =>
          simp only [List.cons_append, jgeLoop, if_neg hv, hc, hf]
          exact ih post (pairs.foldl (fun o p => setKV o p.1 p.2) out) errs k c

/-- If every non-empty entry has a registered converter, the loop does not
panic and its error list is exactly the spec-side `failMsgs` appended to the
incoming error list. -/
theorem jgeLoop_errs (l : List (String × String × String)) :
    ∀ out errs,
      (∀ v k c, (v, k, c) ∈ l → v ≠ "" → (converters c).isSome = true) →
      ∃ res, jgeLoop l out errs = some res ∧ res.2 = errs ++ failMsgs l := by
  induction l with
  | nil =>
    intro out errs _
    exact ⟨(out, errs), rfl, by simp [failMsgs]⟩
  | cons p rest ih =>
    intro out errs h
    obtain ⟨v, k, c⟩ := p
    by_cases hv : v = ""
    · obtain ⟨res, hres, herrs⟩ := ih out errs
        (fun v1 k1 c1 hm hne => h v1 k1 c1 (List.mem_cons_of_mem _ hm) hne)
      refine ⟨res, ?_, ?_⟩
      · simpa [jgeLoop, hv] using hres
      · rw [herrs]
        simp [failMsgs, hv]
    · have hreg := h v k c (List.mem_cons_self _ _) hv
      rw [Option.isSome_iff_exists] at hreg
      obtain ⟨f, hf⟩ := hreg
      cases hcall : f k v with
      | error e =>
        obtain ⟨res, hres, herrs⟩ := ih
          (out) (errs ++ [convErrMsg k v e])
          (fun v1 k1 c1 hm hne => h v1 k1 c1 (List.mem_cons_of_mem _ hm) hne)
        refine ⟨res, ?_, ?_⟩
        · simp only [jgeLoop, if_neg hv, hf, hcall]
          exact hres
        · rw [herrs]
          simp [failMsgs, hv, hf, hcall]
      | ok pairs =>
        obtain ⟨res, hres, herrs⟩ := ih
          (pairs.foldl (fun o p => setKV o p.1 p.2) out) errs
          (fun v1 k1 c1 hm hne => h v1 k1 c1 (List.mem_cons_of_mem _ hm) hne)
        refine ⟨res, ?_, ?_⟩
        · simp only [jgeLoop, if_neg hv, hf, hcall]
          exact hres
        · rw [herrs]
          simp [failMsgs, hv, hf, hcall]

/-! ### Claim theorems: C6 and C8 -/

/-- Claim C6 (confirmed).  Record-transformation precondition: whenever
splitting the line on tabs yields a field count different from the
definition count, the call fails immediately with the message reporting both
counts, for every line content, definition table and geolocation flag; the
early return means no conversion is attempted. -/
theorem transform_field_count (line : String) (knownFields : List (String × String))
    (addGeolocationData : Bool)
    (h : (goSplit line '\t').length ≠ knownFields.length) :
    Transform line knownFields addGeolocationData =
      some (.error ("expected " ++ toString knownFields.length ++ " fields, received "
        ++ toString (goSplit line '\t').length ++ " fields")) := by
  unfold Transform jsonifyGoodEvent
  rw [if_pos h]

/-- Witness for `transform_field_count`: a one-field line against a
two-entry definition table. -/
theorem transform_field_count_witness :
    Transform "a" [("x", "convertString"), ("y", "convertString")] true =
      some (.error "expected 2 fields, received 1 fields") :=
  (transform_field_count "a" [("x", "convertString"), ("y", "convertString")]
    true (by decide)).trans rfl

/-- Claim C8 (confirmed).  Empty fields are skipped entirely: an entry with
an empty raw value is dropped by the loop before its converter is looked up
(first conjunct), so the whole transformation is unchanged when the
definition entry at an empty-valued position is replaced by any other entry
whatever — including one naming a converter that fails on empty input or no
registered converter at all (second conjunct): it produces no key and no
error. -/
theorem empty_field_skipped :
    (∀ pre post out errs k c,
      jgeLoop (pre ++ ("", k, c) :: post) out errs = jgeLoop (pre ++ post) out errs) ∧
    (∀ event knownFields addGeolocationData i d2,
      event.get? i = some "" →
      jsonifyGoodEvent event (knownFields.set i d2) addGeolocationData =
        jsonifyGoodEvent event knownFields addGeolocationData) := by
  constructor
  · intro pre post out errs k c
    exact jgeLoop_empty_skip pre post out errs k c
  · intro event knownFields addGeolocationData i d2 hi
    obtain ⟨hilen, higet⟩ := List.get?_eq_some.mp hi
    by_cases hikf : i < knownFields.length
    swap
    · rw [List.set_eq_of_length_le (Nat.le_of_not_lt hikf)]
    unfold jsonifyGoodEvent
    rw [List.length_set]
    by_cases hlen : event.length = knownFields.length
    swap
    · rw [if_pos (fun hc => hlen hc), if_pos (fun hc => hlen hc)]
    rw [if_neg (fun hc => hc hlen), if_neg (fun hc => hc hlen)]
    have hev : event = event.take i ++ "" :: event.drop (i + 1) := by
      conv =>
        left
        rw [← List.take_append_drop i event]
      rw [List.drop_eq_getElem_cons hilen]
      have hnth : event[i] = "" := by
        have hg := List.get?_eq_some.mp hi
        obtain ⟨h1, h2⟩ := hg
        simpa [List.get_eq_getElem] using h2
      rw [hnth]
    have hkf : knownFields.set i d2 =
        knownFields.take i ++ d2 :: knownFields.drop (i + 1) := by
      exact List.set_eq_take_cons_drop d2 hikf
    have hkf2 : knownFields =
        knownFields.take i ++ knownFields[i] :: knownFields.drop (i + 1) := by
      conv =>
        left
        rw [← List.take_append_drop i knownFields]
      rw [List.drop_eq_getElem_cons hikf]
    have htake : (event.take i).length = (knownFields.take i).length := by
      simp [List.length_take, hlen]
    cases geoStep event addGeolocationData with
    | none => rfl
    | some out0 =>
      have hz1 : event.zip (knownFields.set i d2) =
          (event.take i).zip (knownFields.take i) ++
            ("", d2) :: (event.drop (i + 1)).zip (knownFields.drop (i + 1)) := by
        conv =>
          left
          rw [hev, hkf]
        rw [List.zip_append htake]
        rfl
      have hz2 : event.zip knownFields =
          (event.take i).zip (knownFields.take i) ++
            ("", knownFields[i]) :: (event.drop (i + 1)).zip (knownFields.drop (i + 1)) := by
        conv =>
          left
          rw [hev]
          rw [hkf2]
        rw [List.zip_append htake]
        rfl
      simp only [zipFields]
      rw [hz1, hz2]
      simp only [List.map_append, List.map_cons]
      rw [jgeLoop_empty_skip, jgeLoop_empty_skip]

/-- Witness for `empty_field_skipped`: replacing the definition entry at an
empty-valued position by one naming an unregistered converter changes
nothing. -/
theorem empty_field_skipped_witness :
    jsonifyGoodEvent ["a", ""]
        ([("x", "convertString"), ("y", "convertInt")].set 1 ("z", "noSuchConverter"))
        false =
      jsonifyGoodEvent ["a", ""] [("x", "convertString"), ("y", "convertInt")] false :=
  empty_field_skipped.2 ["a", ""] [("x", "convertString"), ("y", "convertInt")]
    false 1 ("z", "noSuchConverter") rfl

/-! ### Claim theorem: C4 -/

/-- Claim C4 (confirmed).  Error aggregation: whenever at least one
converter invocation fails on a record that passes the count check (with
registered converters and no geo panic), the whole call fails with the
single combined message joining, comma-separated, the failure message of
every failing invocation in field order — each message carrying the
offending field's key and raw value by construction of `convErrMsg` — and no
output mapping is returned (the result is the error alone). -/
theorem aggregate_conversion_errors (event : List String)
    (knownFields : List (String × String)) (addGeolocationData : Bool)
    (hlen : event.length = knownFields.length)
    (hconv : ∀ p ∈ zipFields event knownFields, p.1 ≠ "" →
      (converters p.2.2).isSome = true)
    (hgeo : (geoStep event addGeolocationData).isSome = true)
    (hfail : failMsgs (zipFields event knownFields) ≠ []) :
    jsonifyGoodEvent event knownFields addGeolocationData =
      some (.error (goJoin ", " (failMsgs (zipFields event knownFields)))) := by
  unfold jsonifyGoodEvent
  rw [if_neg (fun hc => hc hlen)]
  rw [Option.isSome_iff_exists] at hgeo
  obtain ⟨out0, hout0⟩ := hgeo
  obtain ⟨res, hres, herrs⟩ := jgeLoop_errs (zipFields event knownFields) out0 []
    (fun v k c hm hne => hconv (v, k, c) hm hne)
  obtain ⟨out, errs⟩ := res
  have herrs2 : errs = failMsgs (zipFields event knownFields) := by simpa using herrs
  subst herrs2
  simp only [hout0, hres]
  rw [if_pos (by simpa [List.length_pos] using hfail)]

/-- Witness for `aggregate_conversion_errors`: two simultaneously bad
integer fields. -/
theorem aggregate_conversion_errors_witness :
    jsonifyGoodEvent ["zz", "3x"] [("x", "convertInt"), ("y", "convertInt")] false =
      some (.error (goJoin ", "
        (failMsgs (zipFields ["zz", "3x"] [("x", "convertInt"), ("y", "convertInt")])))) :=
  aggregate_conversion_errors ["zz", "3x"] [("x", "convertInt"), ("y", "convertInt")]
    false rfl (by decide) rfl (by decide)

/-! ### Key preservation through the loop (for claim C7) -/

theorem lookupKV_setKV_ne {α : Type} (out : List (String × α)) (k K : String)
    (v : α) (h : k ≠ K) : lookupKV (setKV out k v) K = lookupKV out K := by
  induction out with
  | nil => simp [setKV, lookupKV, h]
  | cons p rest ih =>
    obtain ⟨k1, v1⟩ := p
    by_cases h1 : k1 = k
    · simp only [setKV, if_pos h1, lookupKV]
      rw [if_neg (fun he => h (h1.symm.trans he))]
      rw [if_neg (fun he => h (h1.symm.trans he))]
    · simp only [setKV, if_neg h1, lookupKV]
      by_cases h2 : k1 = K
      · rw [if_pos h2, if_pos h2]
      · rw [if_neg h2, if_neg h2, ih]

theorem lookupKV_foldl_setKV {α : Type} (pairs : List (String × α)) :
    ∀ (out : List (String × α)) (K : String), (∀ q ∈ pairs, q.1 ≠ K) →
      lookupKV (pairs.foldl (fun o p => setKV o p.1 p.2) out) K = lookupKV out K := by
  induction pairs with
  | nil => intro out K _; rfl
  | cons q rest ih =>
    intro out K h
    rw [List.foldl_cons]
    rw [ih _ K (fun q1 hq1 => h q1 (List.mem_cons_of_mem _ hq1))]
    exact lookupKV_setKV_ne out q.1 K q.2 (h q (List.mem_cons_self _ _))

/-- If no non-empty entry's converter emits the key `K`, the loop leaves the
binding of `K` unchanged. -/
theorem jgeLoop_lookup_preserved (l : List (String × String × String)) :
    ∀ out errs out2 errs2, jgeLoop l out errs = some (out2, errs2) →
      ∀ K, (∀ p ∈ l, p.1 ≠ "" → ∀ q ∈ dispatchPairs p.2.2 p.2.1 p.1, q.1 ≠ K) →
      lookupKV out2 K = lookupKV out K := by
  induction l with
  | nil =>
    intro out errs out2 errs2 hres K _
    simp only [jgeLoop] at hres
    obtain ⟨h1, h2⟩ := Prod.mk.inj (Option.some.inj hres)
    rw [← h1]
  | cons p rest ih =>
    intro out errs out2 errs2 hres K h
    obtain ⟨v, k, c⟩ := p
    by_cases hv : v = ""
    · simp only [jgeLoop, if_pos hv] at hres
      exact ih _ _ _ _ hres K (fun p1 hp1 => h p1 (List.mem_cons_of_mem _ hp1))
    · cases hc : converters c with
      | none =>
        simp only [jgeLoop, if_neg hv, hc] at hres
        exact Option.noConfusion hres
      | some f =>
        cases hcall : f k v with
        | error e =>
          simp only [jgeLoop, if_neg hv, hc, hcall] at hres
          exact ih _ _ _ _ hres K (fun p1 hp1 => h p1 (List.mem_cons_of_mem _ hp1))
        | ok pairs =>
          simp only [jgeLoop, if_neg hv, hc, hcall] at hres
          have hstep := ih _ _ _ _ hres K (fun p1 hp1 => h p1 (List.mem_cons_of_mem _ hp1))
          rw [hstep]
          refine lookupKV_foldl_setKV pairs out K ?_
          intro q hq
          exact h (v, k, c) (List.mem_cons_self _ _) hv q
            (by simpa [dispatchPairs, hc, hcall, okPairs] using hq)

/-! ### The geo-location synthesis step -/

theorem geoStep_some (event : List String) (lat lon : String)
    (hlat : event.get? LatitudeIndex = some lat) (hlatne : lat ≠ "")
    (hlon : event.get? LongitudeIndex = some lon) (hlonne : lon ≠ "") :
    geoStep event true = some [("geo_location", Value.str (lat ++ "," ++ lon))] := by
  rw [List.get?_eq_getElem?] at hlat hlon
  simp [geoStep, hlat, hlon, hlatne, hlonne, setKV]

theorem geoStep_none_cases (event : List String) (flag : Bool)
    (h : flag = false ∨ event.get? LatitudeIndex = some "" ∨
      event.get? LongitudeIndex = some "") :
    geoStep event flag = some [] ∨ geoStep event flag = none := by
  rcases h with h | h | h
  · subst h
    left
    rfl
  · rw [List.get?_eq_getElem?] at h
    cases flag with
    | false => left; rfl
    | true =>
      left
      simp [geoStep, h]
  · rw [List.get?_eq_getElem?] at h
    cases flag with
    | false => left; rfl
    | true =>
      cases h22 : event[LatitudeIndex]? with
      | none =>
        right
        simp [geoStep, h22]
      | some lat =>
        by_cases hl : lat = ""
        · left
          simp [geoStep, h22, hl]
        · left
          simp [geoStep, h22, hl, h]

/-! ### Claim theorems: C7 and C9 -/

/-- Counterexample to claim C7 as stated: a record passing the count check,
with the geolocation flag set and non-empty latitude/longitude at indices
22 and 23, whose definition table also writes the key `geo_location`
through `convertString`; the conversion loop overwrites the synthesized
binding, so the output does not map `geo_location` to `"<lat>,<lon>"`. -/
theorem geo_location_claim_false :
    jsonifyGoodEvent geoCxEvent geoCxFields true =
      some (.ok [("geo_location", Value.str "X"),
        ("geo_latitude", Value.str "1.5"),
        ("geo_longitude", Value.str "2.5")]) ∧
    geoCxEvent.get? LatitudeIndex = some "1.5" ∧
    geoCxEvent.get? LongitudeIndex = some "2.5" ∧
    lookupKV [("geo_location", Value.str "X"),
        ("geo_latitude", Value.str "1.5"),
        ("geo_longitude", Value.str "2.5")] "geo_location" ≠
      some (Value.str ("1.5" ++ "," ++ "2.5")) := by
  refine ⟨rfl, rfl, rfl, ?_⟩
  intro h
  have h1 : Value.str "X" = Value.str ("1.5" ++ "," ++ "2.5") := Option.some.inj h
  have h2 : "X" = "1.5" ++ "," ++ "2.5" := by injection h1
  exact absurd h2 (by decide)

/-- Claim C7 (corrected).  As stated, the claim fails on the code: the
synthesized `geo_location` binding is written before the conversion loop
and a later converter output pair with the same key silently overwrites it
(see `geo_location_claim_false`).  Amended with the proviso that no
non-empty field's converter invocation emits an output pair keyed
`geo_location` (true of the standard table, whose shredded keys carry the
`contexts`/`unstruct_event` prefixes): then a successful call with the flag
set and both fixed-index values non-empty binds `geo_location` to
`"<lat>,<lon>"`, and with the flag unset or either value empty the output
has no `geo_location` key. -/
theorem geo_location_synthesis (event : List String)
    (knownFields : List (String × String)) (addGeolocationData : Bool)
    (out : List (String × Value))
    (hnogeo : ∀ p ∈ zipFields event knownFields, p.1 ≠ "" →
      ∀ q ∈ dispatchPairs p.2.2 p.2.1 p.1, q.1 ≠ "geo_location")
    (hout : jsonifyGoodEvent event knownFields addGeolocationData = some (.ok out)) :
    (∀ lat lon, addGeolocationData = true →
      event.get? LatitudeIndex = some lat → lat ≠ "" →
      event.get? LongitudeIndex = some lon → lon ≠ "" →
      lookupKV out "geo_location" = some (Value.str (lat ++ "," ++ lon))) ∧
    ((addGeolocationData = false ∨ event.get? LatitudeIndex = some "" ∨
        event.get? LongitudeIndex = some "") →
      lookupKV out "geo_location" = none) := by
  unfold jsonifyGoodEvent at hout
  by_cases hlen : event.length = knownFields.length
  swap
  · rw [if_pos hlen] at hout
    exact absurd (Option.some.inj hout) (by simp)
  rw [if_neg (fun hc => hc hlen)] at hout
  cases hgeo : geoStep event addGeolocationData with
  | none =>
    simp only [hgeo] at hout
    exact Option.noConfusion hout
  | some out0 =>
    simp only [hgeo] at hout
    cases hloop : jgeLoop (zipFields event knownFields) out0 [] with
    | none =>
      simp only [hloop] at hout
      exact Option.noConfusion hout
    | some res =>
      obtain ⟨out2, errs⟩ := res
      simp only [hloop] at hout
      by_cases herr : errs.length > 0
      · rw [if_pos herr] at hout
        exact absurd (Option.some.inj hout) (by simp)
      · rw [if_neg herr] at hout
        obtain rfl : out2 = out := Except.ok.inj (Option.some.inj hout)
        have hpres := jgeLoop_lookup_preserved _ _ _ _ _ hloop "geo_location" hnogeo
        constructor
        · intro lat lon hflag hlat hlatne hlon hlonne
          rw [hpres]
          rw [hflag] at hgeo
          rw [geoStep_some event lat lon hlat hlatne hlon hlonne] at hgeo
          obtain rfl : [("geo_location", Value.str (lat ++ "," ++ lon))] = out0 :=
            Option.some.inj hgeo
          simp [lookupKV]
        · intro hcase
          rw [hpres]
          rcases geoStep_none_cases event addGeolocationData hcase with hg | hg
          · rw [hg] at hgeo
            obtain rfl : ([] : List (String × Value)) = out0 := Option.some.inj hgeo
            rfl
          · rw [hg] at hgeo
            exact Option.noConfusion hgeo

/-- Witness for `geo_location_synthesis`: a 24-field record of plain string
fields with non-empty latitude/longitude and the flag set. -/
theorem geo_location_synthesis_witness :
    lookupKV [("geo_location", Value.str "1.5,2.5"),
        ("geo_latitude", Value.str "1.5"),
        ("geo_longitude", Value.str "2.5")] "geo_location" =
      some (Value.str ("1.5" ++ "," ++ "2.5")) :=
  (geo_location_synthesis geoOkEvent geoOkFields true
      [("geo_location", Value.str "1.5,2.5"),
        ("geo_latitude", Value.str "1.5"),
        ("geo_longitude", Value.str "2.5")]
      (by decide) rfl).1 "1.5" "2.5" rfl rfl (by decide) rfl (by decide)

/-- Claim C9 (confirmed).  The contexts and unstruct converters ignore the
field name from the definition table (first two conjuncts); both the
`contexts` and the `derived_contexts` columns of the standard table use
`convertContexts` (third conjunct), whose keys carry the same `contexts`
prefix; hence a schema appearing in both columns yields the same output
key, and the later column's pair overwrites the earlier one in the merged
output: the two-column record below keeps only the later payload
`"second"` under the single shared key (fourth conjunct). -/
theorem context_converters_ignore_key :
    (∀ k1 k2 v, convertContexts k1 v = convertContexts k2 v) ∧
    (∀ k1 k2 v, convertUnstruct k1 v = convertUnstruct k2 v) ∧
    (("contexts", "convertContexts") ∈ EnrichedEventFieldTypes ∧
      ("derived_contexts", "convertContexts") ∈ EnrichedEventFieldTypes) ∧
    (jsonifyGoodEvent [ctxDemo1, ctxDemo2]
        [("contexts", "convertContexts"), ("derived_contexts", "convertContexts")]
        false =
      some (.ok [("contexts_com_acme_my_event_1",
        Value.jsonArr [JsonVal.str "second"])])) := by
  refine ⟨fun k1 k2 v => rfl, fun k1 k2 v => rfl, ⟨?_, ?_⟩, rfl⟩
  · decide
  · decide

end Snowplow
